import Mathlib

/-!
# Verification of the espaloma factor-graph construction and message passing

Shallow embedding of `espaloma/nn/factornet.py` (structural extraction,
heterogeneous graph construction, atom-to-factor message passing with the
symmetrized MLP update) and of the trajectory-fetch logic of
`espaloma/data/qcarchive_utils.py`.

Torch tensors are modelled row-wise as lists of rational-valued rows; torch
and DGL runtime failures (shape mismatches, missing feature keys) are
modelled with `Option`, `none` standing for a raised error.
-/

namespace Factornet

/-- One row of a torch tensor: a feature vector with rational entries. -/
abbrev Vec := List ℚ

/-- Pointwise addition of two equal-width rows (torch elementwise `+`). -/
def vadd (a b : Vec) : Vec := List.zipWith (· + ·) a b

/-- Sum of a batch of equal-width rows (the `fn.sum` reducer applied to the
messages landing on one node).  The empty sum is the empty row; it never
arises on the graphs built by `offmol_to_heterograph`, where every factor
node has exactly one in-edge per slot. -/
def vsum : List Vec → Vec
  | [] => []
  | [v] => v
  | v :: rest => vadd v (vsum rest)

/-- `F.relu` on one entry. -/
def relu (x : ℚ) : ℚ := max x 0

/-- `F.relu` on a row. -/
def vrelu (v : Vec) : Vec := v.map relu

/-- Dot product of two equal-length rows. -/
def dot (a b : List ℚ) : ℚ := (List.zipWith (· * ·) a b).sum

/-- `torch.nn.Linear`: a weight matrix (`weight.length` output rows, each of
width `inFeatures`) and a bias vector. -/
structure Linear where
  inFeatures : ℕ
  weight : List (List ℚ)
  bias : List ℚ
deriving DecidableEq

/-- Shape consistency of a `torch.nn.Linear` (torch tensors are rectangular,
and `bias` always has one entry per output row). -/
def Linear.wf (l : Linear) : Prop :=
  (∀ r ∈ l.weight, r.length = l.inFeatures) ∧ l.bias.length = l.weight.length

instance (l : Linear) : Decidable l.wf := by
  unfold Linear.wf; infer_instance

/-- Applying a linear layer, `x ↦ W x + b`.  torch raises a shape-mismatch
error when the input width differs from `inFeatures`; that is `none` here. -/
def Linear.apply (l : Linear) (x : Vec) : Option Vec :=
  if x.length = l.inFeatures then
    some (List.zipWith (fun row b => dot row x + b) l.weight l.bias)
  else none

/-- The `MLP` module of factornet.py: three linear layers
(`fc1 : in → 64`, `fc2 : 64 → 64`, `fc3 : 64 → out`). -/
structure MLP where
  fc1 : Linear
  fc2 : Linear
  fc3 : Linear
deriving DecidableEq

/-- `MLP.forward`: `fc3 (relu (fc2 (relu (fc1 x))))`, propagating shape
errors. -/
def MLP.forward (m : MLP) (x : Vec) : Option Vec :=
  match m.fc1.apply x with
  | none => none
  | some h1 =>
    match m.fc2.apply (vrelu h1) with
    | none => none
    | some h2 => m.fc3.apply (vrelu h2)

/-- The shapes `MLP.__init__` gives the three layers for input width `inF`
and output width `outF`: 64 hidden units in each of the two hidden layers. -/
def MLP.shaped (m : MLP) (inF outF : ℕ) : Prop :=
  m.fc1.wf ∧ m.fc1.inFeatures = inF ∧ m.fc1.weight.length = 64 ∧
  m.fc2.wf ∧ m.fc2.inFeatures = 64 ∧ m.fc2.weight.length = 64 ∧
  m.fc3.wf ∧ m.fc3.inFeatures = 64 ∧ m.fc3.weight.length = outF

instance (m : MLP) (inF outF : ℕ) : Decidable (m.shaped inF outF) := by
  unfold MLP.shaped; infer_instance

/-- Common body of `_compute_updated_bond_representation`,
`_compute_updated_angle_representation` and
`_compute_updated_torsion_representation` (the source triplicates it per
arity), one factor instance at a time: `msgs` are the gathered per-slot rows
`msg_dest[0..n-1]` of that instance, `r` its current representation row.
`X_f = torch.cat(incoming_messages + [current_repr])`,
`X_r = torch.cat(incoming_messages[::-1] + [current_repr])`, and the updated
row is `f(X_f) + f(X_r)`. -/
def updatedFactorRepr (f : MLP) (msgs : List Vec) (r : Vec) : Option Vec :=
  match f.forward (msgs.flatten ++ r), f.forward (msgs.reverse.flatten ++ r) with
  | some a, some b => some (vadd a b)
  | some _, none => none
  | none, _ => none

lemma vadd_comm (a b : Vec) : vadd a b = vadd b a := by
  unfold vadd
  induction a generalizing b with
  | nil => cases b <;> simp [List.zipWith]
  | cons x xs ih =>
    cases b with
    | nil => simp [List.zipWith]
    | cons y ys => simp [List.zipWith, ih, add_comm]

/-! ## Molecule topology and heterograph construction -/

/-- The slice of an openforcefield `Molecule` that factornet.py reads: atomic
numbers indexed by atom, and the native enumerations of bonds, angles and
proper torsions as atom-index tuples (the source converts the toolkit's atom
objects to `molecule_atom_index` tuples; we start from those tuples). -/
structure OffMol where
  atoms : List ℕ
  bonds : List (ℕ × ℕ)
  angles : List (ℕ × ℕ × ℕ)
  propers : List (ℕ × ℕ × ℕ × ℕ)
deriving DecidableEq

/-- `bonds[i][k]` on a bond tuple. -/
def slot2 (p : ℕ × ℕ) : ℕ → ℕ
  | 0 => p.1
  | _ => p.2

/-- `angles[i][k]` on an angle tuple. -/
def slot3 (p : ℕ × ℕ × ℕ) : ℕ → ℕ
  | 0 => p.1
  | 1 => p.2.1
  | _ => p.2.2

/-- `torsions[i][k]` on a torsion tuple. -/
def slot4 (p : ℕ × ℕ × ℕ × ℕ) : ℕ → ℕ
  | 0 => p.1
  | 1 => p.2.1
  | 2 => p.2.2.1
  | _ => p.2.2.2

/-- The forward edge list `('atom', f'in[{k}]', factor)` built by the
`form_*_dict_ordered` loops: for `i in range(len(tuples))` the edge
`(tuples[i][k], i)`, in that order. -/
def forwardEdges {α : Type} (tuples : List α) (slot : α → ℕ → ℕ) (d : α)
    (k : ℕ) : List (ℕ × ℕ) :=
  (List.range tuples.length).map (fun i => (slot (tuples.getD i d) k, i))

/-- The `(factor, 'contains', 'atom')` edge list the same loops build:
slot 0 for every tuple, then slot 1, and so on. -/
def containsEdges {α : Type} (tuples : List α) (slot : α → ℕ → ℕ) (d : α)
    (arity : ℕ) : List (ℕ × ℕ) :=
  ((List.range arity).map (fun k =>
    (List.range tuples.length).map (fun i => (i, slot (tuples.getD i d) k)))).flatten

/-- DGL's node-count inference for `dgl.heterograph` called without
`num_nodes_dict`: one plus the largest id a relation mentions for the node
type, or 0 when none is mentioned. -/
def inferredNum (ids : List ℕ) : ℕ :=
  ids.foldr (fun x acc => max (x + 1) acc) 0

/-- `allowable_atomic_numbers = [1, 6, 7, 8]` (H, C, N, O). -/
def allowable_atomic_numbers : List ℕ := [1, 6, 7, 8]

/-- `one_hot_elements` calls
`dgllife.utils.one_hot_encoding(f, set(allowable_atomic_numbers))`, so the
encoding iterates over the Python *set* `{1, 6, 7, 8}`, not over the list.
CPython iterates a set in hash-table slot order; small non-negative ints hash
to themselves and this four-element set keeps the initial 8-slot table (no
resize below five used slots), so 1, 6, 7 occupy slots 1, 6, 7 while 8
occupies slot 8 mod 8 = 0, and iteration yields 8, 1, 6, 7.  That order is
the same on every CPython run. -/
def allowable_atomic_numbers_iter : List ℕ := [8, 1, 6, 7]

/-- `dgllife.utils.one_hot_encoding(x, allowable_set)` with the default
`encode_unknown=False`: `[x == s for s in allowable_set]`, the booleans read
off as 0/1 by the enclosing `torch.tensor(..., dtype=float32)`. -/
def one_hot_encoding (x : ℕ) (allowable : List ℕ) : Vec :=
  allowable.map (fun s => if x = s then 1 else 0)

/-- `one_hot_elements(atomic_numbers)`. -/
def one_hot_elements (atomic_numbers : List ℕ) : List Vec :=
  atomic_numbers.map (fun a => one_hot_encoding a allowable_atomic_numbers_iter)

/-- Forward bond relations, one per slot `k = 0, 1`. -/
def bondInEdges (m : OffMol) : List (List (ℕ × ℕ)) :=
  (List.range 2).map (forwardEdges m.bonds slot2 (0, 0))

/-- Forward angle relations, one per slot `k = 0, 1, 2`. -/
def angleInEdges (m : OffMol) : List (List (ℕ × ℕ)) :=
  (List.range 3).map (forwardEdges m.angles slot3 (0, 0, 0))

/-- Forward torsion relations, one per slot `k = 0, 1, 2, 3`. -/
def torsionInEdges (m : OffMol) : List (List (ℕ × ℕ)) :=
  (List.range 4).map (forwardEdges m.propers slot4 (0, 0, 0, 0))

/-- `('bond', 'contains', 'atom')` edges. -/
def bondContainsEdges (m : OffMol) : List (ℕ × ℕ) :=
  containsEdges m.bonds slot2 (0, 0) 2

/-- `('angle', 'contains', 'atom')` edges. -/
def angleContainsEdges (m : OffMol) : List (ℕ × ℕ) :=
  containsEdges m.angles slot3 (0, 0, 0) 3

/-- `('torsion', 'contains', 'atom')` edges. -/
def torsionContainsEdges (m : OffMol) : List (ℕ × ℕ) :=
  containsEdges m.propers slot4 (0, 0, 0, 0) 4

/-- DGL's inferred `bond` node count for the heterograph. -/
def inferredBondCount (m : OffMol) : ℕ :=
  inferredNum ((bondInEdges m).flatten.map Prod.snd ++
    (bondContainsEdges m).map Prod.fst)

/-- DGL's inferred `angle` node count. -/
def inferredAngleCount (m : OffMol) : ℕ :=
  inferredNum ((angleInEdges m).flatten.map Prod.snd ++
    (angleContainsEdges m).map Prod.fst)

/-- DGL's inferred `torsion` node count. -/
def inferredTorsionCount (m : OffMol) : ℕ :=
  inferredNum ((torsionInEdges m).flatten.map Prod.snd ++
    (torsionContainsEdges m).map Prod.fst)

/-- DGL's inferred `atom` node count: atoms are sources of every forward
relation and destinations of every `contains` relation. -/
def inferredAtomCount (m : OffMol) : ℕ :=
  inferredNum ((bondInEdges m).flatten.map Prod.fst ++
    (angleInEdges m).flatten.map Prod.fst ++
    (torsionInEdges m).flatten.map Prod.fst ++
    (bondContainsEdges m).map Prod.snd ++
    (angleContainsEdges m).map Prod.snd ++
    (torsionContainsEdges m).map Prod.snd)

/-- The DGL heterograph as factornet.py uses it: per-type node counts, the
slot-indexed forward edge lists, the `contains` edge lists, and one feature
table per node type (attribute name to one row per node). -/
structure FactorGraph where
  numAtoms : ℕ
  numBonds : ℕ
  numAngles : ℕ
  numTorsions : ℕ
  bondIn : List (List (ℕ × ℕ))
  angleIn : List (List (ℕ × ℕ))
  torsionIn : List (List (ℕ × ℕ))
  bondContains : List (ℕ × ℕ)
  angleContains : List (ℕ × ℕ)
  torsionContains : List (ℕ × ℕ)
  atomData : List (String × List Vec)
  bondData : List (String × List Vec)
  angleData : List (String × List Vec)
  torsionData : List (String × List Vec)
deriving DecidableEq

/-- Reading `g.nodes[ty].data[name]`; `none` is a Python `KeyError`. -/
def getEntry (t : List (String × List Vec)) (name : String) :
    Option (List Vec) :=
  match t.find? (fun p => p.1 == name) with
  | some p => some p.2
  | none => none

/-- Writing `g.nodes[ty].data[name] = rows`: replaces any entry under
`name`, leaving every other entry unchanged. -/
def setEntry (t : List (String × List Vec)) (name : String)
    (rows : List Vec) : List (String × List Vec) :=
  (name, rows) :: t.filter (fun p => p.1 != name)

/-- The heterograph `offmol_to_heterograph` assembles when the `element`
assignment succeeds: DGL-inferred node counts, the three edge dictionaries,
one-hot `element` rows on atoms and a width-1 zero `initial_representation`
per factor node. -/
def builtGraph (m : OffMol) : FactorGraph :=
  { numAtoms := inferredAtomCount m,
    numBonds := inferredBondCount m,
    numAngles := inferredAngleCount m,
    numTorsions := inferredTorsionCount m,
    bondIn := bondInEdges m,
    angleIn := angleInEdges m,
    torsionIn := torsionInEdges m,
    bondContains := bondContainsEdges m,
    angleContains := angleContainsEdges m,
    torsionContains := torsionContainsEdges m,
    atomData := [("element", one_hot_elements m.atoms)],
    bondData := [("initial_representation",
      List.replicate (inferredBondCount m) [0])],
    angleData := [("initial_representation",
      List.replicate (inferredAngleCount m) [0])],
    torsionData := [("initial_representation",
      List.replicate (inferredTorsionCount m) [0])] }

/-- `offmol_to_heterograph`: builds the three edge dictionaries, creates the
heterograph (node counts inferred by DGL), writes the one-hot `element`
feature onto atom nodes — DGL raises when the row count differs from the
inferred atom node count, which is the only way an out-of-range tuple index
surfaces — and zero-initialises a width-1 `initial_representation` per
factor node. -/
def offmol_to_heterograph (m : OffMol) : Option FactorGraph :=
  if (one_hot_elements m.atoms).length = inferredAtomCount m then
    some (builtGraph m)
  else none

lemma range_two : List.range 2 = [0, 1] := by rfl

lemma range_three : List.range 3 = [0, 1, 2] := by rfl

lemma range_four : List.range 4 = [0, 1, 2, 3] := by rfl

lemma inferredNum_append (l1 l2 : List ℕ) :
    inferredNum (l1 ++ l2) = max (inferredNum l1) (inferredNum l2) := by
  unfold inferredNum
  induction l1 with
  | nil => simp
  | cons x xs ih =>
    simp only [List.cons_append, List.foldr_cons, ih]
    omega

lemma inferredNum_range (n : ℕ) : inferredNum (List.range n) = n := by
  induction n with
  | zero => rfl
  | succ k ih =>
    rw [List.range_succ, inferredNum_append, ih]
    simp [inferredNum]

lemma le_inferredNum (l : List ℕ) (x : ℕ) (h : x ∈ l) :
    x + 1 ≤ inferredNum l := by
  unfold inferredNum
  induction l with
  | nil => cases h
  | cons y ys ih =>
    rcases List.mem_cons.mp h with rfl | h'
    · simp
    · simp only [List.foldr_cons]
      exact le_trans (ih h') (le_max_right _ _)

lemma forwardEdges_length {α : Type} (t : List α) (s : α → ℕ → ℕ) (d : α)
    (k : ℕ) : (forwardEdges t s d k).length = t.length := by
  simp [forwardEdges]

lemma forwardEdges_getD {α : Type} (t : List α) (s : α → ℕ → ℕ) (d : α)
    (k i : ℕ) (hi : i < t.length) :
    (forwardEdges t s d k).getD i (0, 0) = (s (t.getD i d) k, i) := by
  unfold forwardEdges
  rw [List.getD_eq_getElem?_getD, List.getElem?_map, List.getElem?_range hi]
  rfl

lemma map_snd_pair (f : ℕ → ℕ) (l : List ℕ) :
    (l.map (fun i => ((f i, i) : ℕ × ℕ))).map Prod.snd = l := by
  induction l with
  | nil => rfl
  | cons x xs ih => simp only [List.map_cons, ih]

lemma map_fst_pair (f : ℕ → ℕ) (l : List ℕ) :
    (l.map (fun i => ((i, f i) : ℕ × ℕ))).map Prod.fst = l := by
  induction l with
  | nil => rfl
  | cons x xs ih => simp only [List.map_cons, ih]

lemma forwardEdges_snd {α : Type} (t : List α) (s : α → ℕ → ℕ) (d : α)
    (k : ℕ) : (forwardEdges t s d k).map Prod.snd = List.range t.length := by
  unfold forwardEdges
  rw [map_snd_pair]

lemma inferredBondCount_eq (m : OffMol) :
    inferredBondCount m = m.bonds.length := by
  unfold inferredBondCount bondInEdges bondContainsEdges containsEdges
  rw [range_two]
  simp only [List.map_cons, List.map_nil, List.flatten_cons,
    List.flatten_nil, List.map_append, List.append_nil, forwardEdges_snd,
    map_fst_pair, inferredNum_append, inferredNum_range]
  omega

lemma inferredAngleCount_eq (m : OffMol) :
    inferredAngleCount m = m.angles.length := by
  unfold inferredAngleCount angleInEdges angleContainsEdges containsEdges
  rw [range_three]
  simp only [List.map_cons, List.map_nil, List.flatten_cons,
    List.flatten_nil, List.map_append, List.append_nil, forwardEdges_snd,
    map_fst_pair, inferredNum_append, inferredNum_range]
  omega

lemma inferredTorsionCount_eq (m : OffMol) :
    inferredTorsionCount m = m.propers.length := by
  unfold inferredTorsionCount torsionInEdges torsionContainsEdges
    containsEdges
  rw [range_four]
  simp only [List.map_cons, List.map_nil, List.flatten_cons,
    List.flatten_nil, List.map_append, List.append_nil, forwardEdges_snd,
    map_fst_pair, inferredNum_append, inferredNum_range]
  omega

lemma offmol_to_heterograph_inv (m : OffMol) (g : FactorGraph)
    (h : offmol_to_heterograph m = some g) : g = builtGraph m := by
  unfold offmol_to_heterograph at h
  split at h
  · injection h with h; exact h.symm
  · exact absurd h (by simp)

lemma builtGraph_bondIn_getD (m : OffMol) (k : ℕ) (hk : k < 2) :
    (builtGraph m).bondIn.getD k [] = forwardEdges m.bonds slot2 (0, 0) k := by
  interval_cases k <;> rfl

lemma builtGraph_angleIn_getD (m : OffMol) (k : ℕ) (hk : k < 3) :
    (builtGraph m).angleIn.getD k [] =
      forwardEdges m.angles slot3 (0, 0, 0) k := by
  interval_cases k <;> rfl

lemma builtGraph_torsionIn_getD (m : OffMol) (k : ℕ) (hk : k < 4) :
    (builtGraph m).torsionIn.getD k [] =
      forwardEdges m.propers slot4 (0, 0, 0, 0) k := by
  interval_cases k <;> rfl

/-- C2: on every successfully constructed heterograph there are exactly
`b`, `a`, `t` nodes of types bond, angle, torsion; each arity-`n` factor
type has exactly `n` forward relations; and the slot-`k` forward relation
has exactly one edge per factor instance, the `i`-th edge connecting the
slot-`k` atom of tuple `i` to factor node `i` (edge order = tuple order). -/
theorem heterograph_structure (m : OffMol) (g : FactorGraph)
    (h : offmol_to_heterograph m = some g) :
    (g.numBonds = m.bonds.length ∧ g.numAngles = m.angles.length ∧
      g.numTorsions = m.propers.length) ∧
    (g.bondIn.length = 2 ∧ g.angleIn.length = 3 ∧ g.torsionIn.length = 4) ∧
    (∀ k, k < 2 → (g.bondIn.getD k []).length = m.bonds.length ∧
      ∀ i, i < m.bonds.length →
        (g.bondIn.getD k []).getD i (0, 0) =
          (slot2 (m.bonds.getD i (0, 0)) k, i)) ∧
    (∀ k, k < 3 → (g.angleIn.getD k []).length = m.angles.length ∧
      ∀ i, i < m.angles.length →
        (g.angleIn.getD k []).getD i (0, 0) =
          (slot3 (m.angles.getD i (0, 0, 0)) k, i)) ∧
    (∀ k, k < 4 → (g.torsionIn.getD k []).length = m.propers.length ∧
      ∀ i, i < m.propers.length →
        (g.torsionIn.getD k []).getD i (0, 0) =
          (slot4 (m.propers.getD i (0, 0, 0, 0)) k, i)) := by
  have hg := offmol_to_heterograph_inv m g h
  subst hg
  refine ⟨⟨inferredBondCount_eq m, inferredAngleCount_eq m,
    inferredTorsionCount_eq m⟩, ⟨rfl, rfl, rfl⟩, ?_, ?_, ?_⟩
  · intro k hk
    rw [builtGraph_bondIn_getD m k hk]
    exact ⟨forwardEdges_length _ _ _ _,
      fun i hi => forwardEdges_getD _ _ _ _ _ hi⟩
  · intro k hk
    rw [builtGraph_angleIn_getD m k hk]
    exact ⟨forwardEdges_length _ _ _ _,
      fun i hi => forwardEdges_getD _ _ _ _ _ hi⟩
  · intro k hk
    rw [builtGraph_torsionIn_getD m k hk]
    exact ⟨forwardEdges_length _ _ _ _,
      fun i hi => forwardEdges_getD _ _ _ _ _ hi⟩

/-- The cyclopropane-like three-carbon witness topology. -/
def offmolW : OffMol :=
  { atoms := [6, 6, 6],
    bonds := [(0, 1), (1, 2)],
    angles := [(0, 1, 2)],
    propers := [] }

/-- The heterograph `offmol_to_heterograph` builds from `offmolW`. -/
def gW : FactorGraph :=
  { numAtoms := 3, numBonds := 2, numAngles := 1, numTorsions := 0,
    bondIn := [[(0, 0), (1, 1)], [(1, 0), (2, 1)]],
    angleIn := [[(0, 0)], [(1, 0)], [(2, 0)]],
    torsionIn := [[], [], [], []],
    bondContains := [(0, 0), (1, 1), (0, 1), (1, 2)],
    angleContains := [(0, 0), (0, 1), (0, 2)],
    torsionContains := [],
    atomData := [("element",
      [[0, 0, 1, 0], [0, 0, 1, 0], [0, 0, 1, 0]])],
    bondData := [("initial_representation", [[0], [0]])],
    angleData := [("initial_representation", [[0]])],
    torsionData := [("initial_representation", [])] }

/-- Witness for C2 at the concrete topology `offmolW`. -/
theorem heterograph_structure_witness :
    gW.numBonds = offmolW.bonds.length ∧ gW.angleIn.length = 3 :=
  ⟨(heterograph_structure offmolW gW (by decide)).1.1,
   (heterograph_structure offmolW gW (by decide)).2.1.2.1⟩

/-- C6 counterexample: an atom with atomic number 6 (carbon) does *not* get
its 1 at index 1.  `one_hot_elements` iterates the Python set
`{1, 6, 7, 8}` in order `[8, 1, 6, 7]`, so carbon's 1 lands at index 2 and
the encoding of `[6]` is `[[0, 0, 1, 0]]`, not `[[0, 1, 0, 0]]`. -/
theorem one_hot_carbon_counterexample :
    one_hot_elements [6] ≠ [[0, 1, 0, 0]] := by decide

/-- C6 amended: the feature initializer assigns a width-4 vector that is
one-hot over the vocabulary `{1, 6, 7, 8}` in the CPython set-iteration
order `[8, 1, 6, 7]` — hydrogen at index 1, carbon at index 2, nitrogen at
index 3, oxygen at index 0 — and an atomic number outside the vocabulary
yields the all-zero vector. -/
theorem one_hot_elements_spec :
    (∀ ans : List ℕ, (one_hot_elements ans).length = ans.length) ∧
    (∀ a : ℕ, (one_hot_encoding a allowable_atomic_numbers_iter).length = 4) ∧
    one_hot_encoding 1 allowable_atomic_numbers_iter = [0, 1, 0, 0] ∧
    one_hot_encoding 6 allowable_atomic_numbers_iter = [0, 0, 1, 0] ∧
    one_hot_encoding 7 allowable_atomic_numbers_iter = [0, 0, 0, 1] ∧
    one_hot_encoding 8 allowable_atomic_numbers_iter = [1, 0, 0, 0] ∧
    (∀ a : ℕ, a ∉ allowable_atomic_numbers →
      one_hot_encoding a allowable_atomic_numbers_iter = [0, 0, 0, 0]) := by
  refine ⟨fun ans => by simp [one_hot_elements],
    fun a => by simp [one_hot_encoding, allowable_atomic_numbers_iter],
    by decide, by decide, by decide, by decide, ?_⟩
  intro a ha
  simp only [allowable_atomic_numbers, List.mem_cons, List.not_mem_nil,
    or_false, not_or] at ha
  obtain ⟨h1, h6, h7, h8⟩ := ha
  simp [one_hot_encoding, allowable_atomic_numbers_iter, h1, h6, h7, h8]

/-- Witness for the out-of-vocabulary clause of the amended C6 at atomic
number 2 (helium). -/
theorem one_hot_elements_spec_witness :
    one_hot_encoding 2 allowable_atomic_numbers_iter = [0, 0, 0, 0] :=
  one_hot_elements_spec.2.2.2.2.2.2 2 (by decide)

lemma mem_forward_fst {α : Type} (t : List α) (s : α → ℕ → ℕ) (d : α)
    (k : ℕ) (p : α) (hp : p ∈ t) :
    s p k ∈ (forwardEdges t s d k).map Prod.fst := by
  obtain ⟨i, hi, hg⟩ := List.mem_iff_getElem.mp hp
  refine List.mem_map.mpr ⟨(s p k, i), ?_, rfl⟩
  unfold forwardEdges
  refine List.mem_map.mpr ⟨i, List.mem_range.mpr hi, ?_⟩
  have hd : t.getD i d = p := by
    rw [List.getD_eq_getElem t d hi, hg]
  rw [hd]

lemma mem_atomMentions_bond (m : OffMol) (j : ℕ) (k : ℕ) (hk : k < 2)
    (hj : j ∈ (forwardEdges m.bonds slot2 (0, 0) k).map Prod.fst) :
    j ∈ (bondInEdges m).flatten.map Prod.fst := by
  obtain ⟨pair, hpair, hfst⟩ := List.mem_map.mp hj
  refine List.mem_map.mpr ⟨pair, ?_, hfst⟩
  refine List.mem_flatten.mpr ⟨forwardEdges m.bonds slot2 (0, 0) k, ?_, hpair⟩
  unfold bondInEdges
  exact List.mem_map.mpr ⟨k, List.mem_range.mpr hk, rfl⟩

lemma mem_atomMentions_angle (m : OffMol) (j : ℕ) (k : ℕ) (hk : k < 3)
    (hj : j ∈ (forwardEdges m.angles slot3 (0, 0, 0) k).map Prod.fst) :
    j ∈ (angleInEdges m).flatten.map Prod.fst := by
  obtain ⟨pair, hpair, hfst⟩ := List.mem_map.mp hj
  refine List.mem_map.mpr ⟨pair, ?_, hfst⟩
  refine List.mem_flatten.mpr
    ⟨forwardEdges m.angles slot3 (0, 0, 0) k, ?_, hpair⟩
  unfold angleInEdges
  exact List.mem_map.mpr ⟨k, List.mem_range.mpr hk, rfl⟩

lemma mem_atomMentions_torsion (m : OffMol) (j : ℕ) (k : ℕ) (hk : k < 4)
    (hj : j ∈ (forwardEdges m.propers slot4 (0, 0, 0, 0) k).map Prod.fst) :
    j ∈ (torsionInEdges m).flatten.map Prod.fst := by
  obtain ⟨pair, hpair, hfst⟩ := List.mem_map.mp hj
  refine List.mem_map.mpr ⟨pair, ?_, hfst⟩
  refine List.mem_flatten.mpr
    ⟨forwardEdges m.propers slot4 (0, 0, 0, 0) k, ?_, hpair⟩
  unfold torsionInEdges
  exact List.mem_map.mpr ⟨k, List.mem_range.mpr hk, rfl⟩

/-- C7: if any bond, angle or torsion tuple references an atom index outside
the topology's atom count, graph construction fails (DGL infers an atom node
count larger than the `element` feature row count, and the feature
assignment raises), so no graph is returned. -/
theorem out_of_range_tuple_fails (m : OffMol)
    (h : (∃ p ∈ m.bonds, m.atoms.length ≤ p.1 ∨ m.atoms.length ≤ p.2) ∨
      (∃ p ∈ m.angles, m.atoms.length ≤ p.1 ∨ m.atoms.length ≤ p.2.1 ∨
        m.atoms.length ≤ p.2.2) ∨
      (∃ p ∈ m.propers, m.atoms.length ≤ p.1 ∨ m.atoms.length ≤ p.2.1 ∨
        m.atoms.length ≤ p.2.2.1 ∨ m.atoms.length ≤ p.2.2.2)) :
    offmol_to_heterograph m = none := by
  have key : ∃ j, m.atoms.length ≤ j ∧ j + 1 ≤ inferredAtomCount m := by
    unfold inferredAtomCount
    rcases h with ⟨p, hp, hs | hs⟩ |
      ⟨p, hp, hs | hs | hs⟩ | ⟨p, hp, hs | hs | hs | hs⟩
    · refine ⟨slot2 p 0, hs, le_inferredNum _ _ ?_⟩
      simp only [List.mem_append]
      exact Or.inl (Or.inl (Or.inl (Or.inl (Or.inl
        (mem_atomMentions_bond m _ 0 (by omega)
          (mem_forward_fst m.bonds slot2 (0, 0) 0 p hp))))))
    · refine ⟨slot2 p 1, hs, le_inferredNum _ _ ?_⟩
      simp only [List.mem_append]
      exact Or.inl (Or.inl (Or.inl (Or.inl (Or.inl
        (mem_atomMentions_bond m _ 1 (by omega)
          (mem_forward_fst m.bonds slot2 (0, 0) 1 p hp))))))
    · refine ⟨slot3 p 0, hs, le_inferredNum _ _ ?_⟩
      simp only [List.mem_append]
      exact Or.inl (Or.inl (Or.inl (Or.inl (Or.inr
        (mem_atomMentions_angle m _ 0 (by omega)
          (mem_forward_fst m.angles slot3 (0, 0, 0) 0 p hp))))))
    · refine ⟨slot3 p 1, hs, le_inferredNum _ _ ?_⟩
      simp only [List.mem_append]
      exact Or.inl (Or.inl (Or.inl (Or.inl (Or.inr
        (mem_atomMentions_angle m _ 1 (by omega)
          (mem_forward_fst m.angles slot3 (0, 0, 0) 1 p hp))))))
    · refine ⟨slot3 p 2, hs, le_inferredNum _ _ ?_⟩
      simp only [List.mem_append]
      exact Or.inl (Or.inl (Or.inl (Or.inl (Or.inr
        (mem_atomMentions_angle m _ 2 (by omega)
          (mem_forward_fst m.angles slot3 (0, 0, 0) 2 p hp))))))
    · refine ⟨slot4 p 0, hs, le_inferredNum _ _ ?_⟩
      simp only [List.mem_append]
      exact Or.inl (Or.inl (Or.inl (Or.inr
        (mem_atomMentions_torsion m _ 0 (by omega)
          (mem_forward_fst m.propers slot4 (0, 0, 0, 0) 0 p hp)))))
    · refine ⟨slot4 p 1, hs, le_inferredNum _ _ ?_⟩
      simp only [List.mem_append]
      exact Or.inl (Or.inl (Or.inl (Or.inr
        (mem_atomMentions_torsion m _ 1 (by omega)
          (mem_forward_fst m.propers slot4 (0, 0, 0, 0) 1 p hp)))))
    · refine ⟨slot4 p 2, hs, le_inferredNum _ _ ?_⟩
      simp only [List.mem_append]
      exact Or.inl (Or.inl (Or.inl (Or.inr
        (mem_atomMentions_torsion m _ 2 (by omega)
          (mem_forward_fst m.propers slot4 (0, 0, 0, 0) 2 p hp)))))
    · refine ⟨slot4 p 3, hs, le_inferredNum _ _ ?_⟩
      simp only [List.mem_append]
      exact Or.inl (Or.inl (Or.inl (Or.inr
        (mem_atomMentions_torsion m _ 3 (by omega)
          (mem_forward_fst m.propers slot4 (0, 0, 0, 0) 3 p hp)))))
  obtain ⟨j, hlen, hj⟩ := key
  have hne : ¬ ((one_hot_elements m.atoms).length = inferredAtomCount m) := by
    simp only [one_hot_elements, List.length_map]
    omega
  unfold offmol_to_heterograph
  rw [if_neg hne]

/-- Witness for C7: a two-atom topology whose only bond references atom
index 5. -/
theorem out_of_range_tuple_fails_witness :
    offmol_to_heterograph
      { atoms := [6, 6], bonds := [(0, 5)], angles := [], propers := [] } =
      none :=
  out_of_range_tuple_fails _ (Or.inl ⟨(0, 5), by decide, Or.inr (by decide)⟩)

/-- C1: for any factor MLP `f` (hence for the bond, angle and torsion
transforms alike, arities 2, 3 and 4), any fixed weights, any current
representation `r` and any gathered per-slot rows `msgs`, the symmetrized
update `f(X_forward) + f(X_reverse)` is invariant under full reversal of the
slot order: `update(reverse(tuple)) = update(tuple)`. -/
theorem update_reflection_invariant (f : MLP) (msgs : List Vec) (r : Vec) :
    updatedFactorRepr f msgs.reverse r = updatedFactorRepr f msgs r := by
  unfold updatedFactorRepr
  rw [List.reverse_reverse]
  cases hf : f.forward (msgs.flatten ++ r) <;>
    cases hr : f.forward (msgs.reverse.flatten ++ r) <;>
      simp [hf, hr, vadd_comm]

/-! ## The AtomToFactor message-passing layer -/

/-- The per-slot attribute name `f'{base}[{i}]'`. -/
def slotName (base : String) (i : ℕ) : String :=
  base ++ ("[" ++ toString i ++ "]")

/-- The `AtomToFactor` module: the four attribute names, the configured
dimensions, and the three per-factor MLPs `__init__` constructs. -/
structure AtomToFactor where
  msg_src_name : String
  msg_dest_name : String
  current_repr_name : String
  updated_repr_name : String
  atom_dim : ℕ
  initial_bond_dim : ℕ
  initial_angle_dim : ℕ
  initial_torsion_dim : ℕ
  updated_bond_dim : ℕ
  updated_angle_dim : ℕ
  updated_torsion_dim : ℕ
  bond_f : MLP
  angle_f : MLP
  torsion_f : MLP
deriving DecidableEq

/-- The layer shapes `AtomToFactor.__init__` builds:
`bond_f = MLP(atom_dim * 2 + initial_factor_dims['bond'], ...)` and so on. -/
def AtomToFactor.wf (net : AtomToFactor) : Prop :=
  net.bond_f.shaped (net.atom_dim * 2 + net.initial_bond_dim)
    net.updated_bond_dim ∧
  net.angle_f.shaped (net.atom_dim * 3 + net.initial_angle_dim)
    net.updated_angle_dim ∧
  net.torsion_f.shaped (net.atom_dim * 4 + net.initial_torsion_dim)
    net.updated_torsion_dim

instance (net : AtomToFactor) : Decidable net.wf := by
  unfold AtomToFactor.wf; infer_instance

/-- One row of a `pull(v, fn.copy_u(src, dest), fn.sum(dest, dest))`:
factor node `v` receives the sum, over the slot's edges landing on `v`, of
the source atoms' `src` rows. -/
def pullRow (src : List Vec) (edges : List (ℕ × ℕ)) (v : ℕ) : Vec :=
  vsum ((edges.filter (fun e => e.2 == v)).map (fun e => src.getD e.1 []))

/-- All rows of one slot's pull, for factor nodes `v = np.arange(N)`. -/
def pullRows (src : List Vec) (edges : List (ℕ × ℕ)) (n : ℕ) : List Vec :=
  (List.range n).map (pullRow src edges)

/-- The bond table after the gather writes of
`_pass_labeled_messages_from_atom_to_bond` (the `for i in range(2)` loop
unrolled). -/
def bondPassTable (net : AtomToFactor) (g : FactorGraph) (src : List Vec) :
    List (String × List Vec) :=
  setEntry (setEntry g.bondData (slotName net.msg_dest_name 0)
      (pullRows src (g.bondIn.getD 0 []) g.numBonds))
    (slotName net.msg_dest_name 1)
    (pullRows src (g.bondIn.getD 1 []) g.numBonds)

/-- The angle table after the gather writes of
`_pass_labeled_messages_from_atom_to_angle`. -/
def anglePassTable (net : AtomToFactor) (g : FactorGraph) (src : List Vec) :
    List (String × List Vec) :=
  setEntry (setEntry (setEntry g.angleData (slotName net.msg_dest_name 0)
        (pullRows src (g.angleIn.getD 0 []) g.numAngles))
      (slotName net.msg_dest_name 1)
      (pullRows src (g.angleIn.getD 1 []) g.numAngles))
    (slotName net.msg_dest_name 2)
    (pullRows src (g.angleIn.getD 2 []) g.numAngles)

/-- The torsion table after the gather writes of
`_pass_labeled_messages_from_atom_to_torsion`. -/
def torsionPassTable (net : AtomToFactor) (g : FactorGraph)
    (src : List Vec) : List (String × List Vec) :=
  setEntry (setEntry (setEntry (setEntry g.torsionData
          (slotName net.msg_dest_name 0)
          (pullRows src (g.torsionIn.getD 0 []) g.numTorsions))
        (slotName net.msg_dest_name 1)
        (pullRows src (g.torsionIn.getD 1 []) g.numTorsions))
      (slotName net.msg_dest_name 2)
      (pullRows src (g.torsionIn.getD 2 []) g.numTorsions))
    (slotName net.msg_dest_name 3)
    (pullRows src (g.torsionIn.getD 3 []) g.numTorsions)

/-- `_pass_labeled_messages_from_atom_to_bond`; reading a missing `msg_src`
atom attribute raises (`none`). -/
def AtomToFactor.passToBond (net : AtomToFactor) (g : FactorGraph) :
    Option FactorGraph :=
  (getEntry g.atomData net.msg_src_name).map
    (fun src => { g with bondData := bondPassTable net g src })

/-- `_pass_labeled_messages_from_atom_to_angle`. -/
def AtomToFactor.passToAngle (net : AtomToFactor) (g : FactorGraph) :
    Option FactorGraph :=
  (getEntry g.atomData net.msg_src_name).map
    (fun src => { g with angleData := anglePassTable net g src })

/-- `_pass_labeled_messages_from_atom_to_torsion`. -/
def AtomToFactor.passToTorsion (net : AtomToFactor) (g : FactorGraph) :
    Option FactorGraph :=
  (getEntry g.atomData net.msg_src_name).map
    (fun src => { g with torsionData := torsionPassTable net g src })

/-- Row-wise evaluation of an `Option`-valued row function over a node index
list; any failing row aborts the whole batched call. -/
def rowsOpt (f : ℕ → Option Vec) : List ℕ → Option (List Vec)
  | [] => some []
  | i :: rest =>
    match f i, rowsOpt f rest with
    | some v, some vs => some (v :: vs)
    | some _, none => none
    | none, _ => none

/-- `_compute_updated_bond_representation`, row by row: read the current
representation and the two gathered slot attributes (a missing key raises),
form `X_f` and `X_r` per row, apply `bond_f` to both and sum, and overwrite
the `updated_repr_name` attribute with the result. -/
def AtomToFactor.computeBond (net : AtomToFactor) (g : FactorGraph) :
    Option FactorGraph :=
  (getEntry g.bondData net.current_repr_name).bind (fun cur =>
    (getEntry g.bondData (slotName net.msg_dest_name 0)).bind (fun m0 =>
      (getEntry g.bondData (slotName net.msg_dest_name 1)).bind (fun m1 =>
        (rowsOpt (fun j => updatedFactorRepr net.bond_f
            [m0.getD j [], m1.getD j []] (cur.getD j []))
          (List.range g.numBonds)).map (fun rows =>
          { g with bondData :=
                     setEntry g.bondData net.updated_repr_name rows }))))

/-- `_compute_updated_angle_representation`, row by row. -/
def AtomToFactor.computeAngle (net : AtomToFactor) (g : FactorGraph) :
    Option FactorGraph :=
  (getEntry g.angleData net.current_repr_name).bind (fun cur =>
    (getEntry g.angleData (slotName net.msg_dest_name 0)).bind (fun m0 =>
      (getEntry g.angleData (slotName net.msg_dest_name 1)).bind (fun m1 =>
        (getEntry g.angleData (slotName net.msg_dest_name 2)).bind (fun m2 =>
          (rowsOpt (fun j => updatedFactorRepr net.angle_f
              [m0.getD j [], m1.getD j [], m2.getD j []] (cur.getD j []))
            (List.range g.numAngles)).map (fun rows =>
            { g with angleData :=
                       setEntry g.angleData net.updated_repr_name rows })))))

/-- `_compute_updated_torsion_representation`, row by row. -/
def AtomToFactor.computeTorsion (net : AtomToFactor) (g : FactorGraph) :
    Option FactorGraph :=
  (getEntry g.torsionData net.current_repr_name).bind (fun cur =>
    (getEntry g.torsionData (slotName net.msg_dest_name 0)).bind (fun m0 =>
      (getEntry g.torsionData (slotName net.msg_dest_name 1)).bind (fun m1 =>
        (getEntry g.torsionData (slotName net.msg_dest_name 2)).bind
          (fun m2 =>
          (getEntry g.torsionData (slotName net.msg_dest_name 3)).bind
            (fun m3 =>
            (rowsOpt (fun j => updatedFactorRepr net.torsion_f
                [m0.getD j [], m1.getD j [], m2.getD j [], m3.getD j []]
                (cur.getD j [])) (List.range g.numTorsions)).map
              (fun rows =>
              { g with torsionData :=
                         setEntry g.torsionData net.updated_repr_name
                           rows }))))))

/-- `AtomToFactor.forward`: gather then update, bond, then angle, then
torsion. -/
def AtomToFactor.forward (net : AtomToFactor) (g : FactorGraph) :
    Option FactorGraph :=
  (net.passToBond g).bind (fun g1 => (net.computeBond g1).bind (fun g2 =>
    (net.passToAngle g2).bind (fun g3 => (net.computeAngle g3).bind
      (fun g4 => (net.passToTorsion g4).bind net.computeTorsion))))

/-! ### Feature-table and slot-name lemmas -/

lemma getEntry_setEntry_self (t : List (String × List Vec)) (name : String)
    (rows : List Vec) : getEntry (setEntry t name rows) name = some rows := by
  unfold getEntry setEntry
  rw [List.find?_cons_of_pos _ (by simp)]

lemma find_filter_ne (t : List (String × List Vec)) (name name' : String)
    (h : name' ≠ name) :
    (t.filter (fun p => p.1 != name)).find? (fun p => p.1 == name') =
      t.find? (fun p => p.1 == name') := by
  induction t with
  | nil => rfl
  | cons a rest ih =>
    by_cases hs : a.1 = name
    · rw [List.filter_cons_of_neg (by simp [hs]), ih,
        List.find?_cons_of_neg _ (by
          simp only [hs, beq_iff_eq]
          exact fun hh => h hh.symm)]
    · rw [List.filter_cons_of_pos (by simp [hs])]
      by_cases hp : a.1 = name'
      · rw [List.find?_cons_of_pos _ (by simp [hp]),
          List.find?_cons_of_pos _ (by simp [hp])]
      · rw [List.find?_cons_of_neg _ (by simp [hp]),
          List.find?_cons_of_neg _ (by simp [hp]), ih]

lemma getEntry_setEntry_ne (t : List (String × List Vec))
    (name name' : String) (rows : List Vec) (h : name' ≠ name) :
    getEntry (setEntry t name rows) name' = getEntry t name' := by
  unfold getEntry setEntry
  rw [List.find?_cons_of_neg _ (by
    simp only [beq_iff_eq]
    exact fun hh => h hh.symm), find_filter_ne t name name' h]

lemma slotName_ne (base : String) (i j : ℕ) (hij : i ≠ j) (hi : i < 4)
    (hj : j < 4) : slotName base i ≠ slotName base j := by
  intro h
  have hd : (slotName base i).data = (slotName base j).data := by rw [h]
  unfold slotName at hd
  rw [String.data_append, String.data_append] at hd
  have hsuf := List.append_cancel_left hd
  interval_cases i <;> interval_cases j <;>
    first
      | exact hij rfl
      | exact absurd hsuf (by decide)

/-! ### Inversion of the six update steps -/

lemma passToBond_inv (net : AtomToFactor) (g g' : FactorGraph)
    (h : net.passToBond g = some g') :
    ∃ src, getEntry g.atomData net.msg_src_name = some src ∧
      g' = { g with bondData := bondPassTable net g src } := by
  unfold AtomToFactor.passToBond at h
  obtain ⟨src, hsrc, hg⟩ := Option.map_eq_some'.mp h
  exact ⟨src, hsrc, hg.symm⟩

lemma passToAngle_inv (net : AtomToFactor) (g g' : FactorGraph)
    (h : net.passToAngle g = some g') :
    ∃ src, getEntry g.atomData net.msg_src_name = some src ∧
      g' = { g with angleData := anglePassTable net g src } := by
  unfold AtomToFactor.passToAngle at h
  obtain ⟨src, hsrc, hg⟩ := Option.map_eq_some'.mp h
  exact ⟨src, hsrc, hg.symm⟩

lemma passToTorsion_inv (net : AtomToFactor) (g g' : FactorGraph)
    (h : net.passToTorsion g = some g') :
    ∃ src, getEntry g.atomData net.msg_src_name = some src ∧
      g' = { g with torsionData := torsionPassTable net g src } := by
  unfold AtomToFactor.passToTorsion at h
  obtain ⟨src, hsrc, hg⟩ := Option.map_eq_some'.mp h
  exact ⟨src, hsrc, hg.symm⟩

lemma computeBond_inv (net : AtomToFactor) (g g' : FactorGraph)
    (h : net.computeBond g = some g') :
    ∃ rows,
      g' = { g with bondData := setEntry g.bondData net.updated_repr_name rows } := by
  unfold AtomToFactor.computeBond at h
  obtain ⟨cur, hcur, h⟩ := Option.bind_eq_some.mp h
  obtain ⟨m0, hm0, h⟩ := Option.bind_eq_some.mp h
  obtain ⟨m1, hm1, h⟩ := Option.bind_eq_some.mp h
  obtain ⟨rows, hrows, hg⟩ := Option.map_eq_some'.mp h
  exact ⟨rows, hg.symm⟩

lemma computeAngle_inv (net : AtomToFactor) (g g' : FactorGraph)
    (h : net.computeAngle g = some g') :
    ∃ rows,
      g' = { g with angleData := setEntry g.angleData net.updated_repr_name rows } := by
  unfold AtomToFactor.computeAngle at h
  obtain ⟨cur, hcur, h⟩ := Option.bind_eq_some.mp h
  obtain ⟨m0, hm0, h⟩ := Option.bind_eq_some.mp h
  obtain ⟨m1, hm1, h⟩ := Option.bind_eq_some.mp h
  obtain ⟨m2, hm2, h⟩ := Option.bind_eq_some.mp h
  obtain ⟨rows, hrows, hg⟩ := Option.map_eq_some'.mp h
  exact ⟨rows, hg.symm⟩

lemma computeTorsion_inv (net : AtomToFactor) (g g' : FactorGraph)
    (h : net.computeTorsion g = some g') :
    ∃ rows,
      g' = { g with torsionData := setEntry g.torsionData net.updated_repr_name rows } := by
  unfold AtomToFactor.computeTorsion at h
  obtain ⟨cur, hcur, h⟩ := Option.bind_eq_some.mp h
  obtain ⟨m0, hm0, h⟩ := Option.bind_eq_some.mp h
  obtain ⟨m1, hm1, h⟩ := Option.bind_eq_some.mp h
  obtain ⟨m2, hm2, h⟩ := Option.bind_eq_some.mp h
  obtain ⟨m3, hm3, h⟩ := Option.bind_eq_some.mp h
  obtain ⟨rows, hrows, hg⟩ := Option.map_eq_some'.mp h
  exact ⟨rows, hg.symm⟩

lemma forward_inv (net : AtomToFactor) (g g' : FactorGraph)
    (h : net.forward g = some g') :
    ∃ g1 g2 g3 g4 g5,
      net.passToBond g = some g1 ∧ net.computeBond g1 = some g2 ∧
      net.passToAngle g2 = some g3 ∧ net.computeAngle g3 = some g4 ∧
      net.passToTorsion g4 = some g5 ∧ net.computeTorsion g5 = some g' := by
  unfold AtomToFactor.forward at h
  obtain ⟨g1, h1, h⟩ := Option.bind_eq_some.mp h
  obtain ⟨g2, h2, h⟩ := Option.bind_eq_some.mp h
  obtain ⟨g3, h3, h⟩ := Option.bind_eq_some.mp h
  obtain ⟨g4, h4, h⟩ := Option.bind_eq_some.mp h
  obtain ⟨g5, h5, h⟩ := Option.bind_eq_some.mp h
  exact ⟨g1, g2, g3, g4, g5, h1, h2, h3, h4, h5, h⟩

/-! ### The gather step on constructed graphs -/

lemma filter_pair_range (f : ℕ → ℕ) (n i : ℕ) (hi : i < n) :
    ((List.range n).map (fun j => ((f j, j) : ℕ × ℕ))).filter
      (fun e => e.2 == i) = [(f i, i)] := by
  induction n with
  | zero => exact absurd hi (by omega)
  | succ k ih =>
    rw [List.range_succ, List.map_append, List.filter_append]
    rcases Nat.lt_or_ge i k with h | h
    · rw [ih h]
      have h2 : (((f k, k) : ℕ × ℕ).2 == i) = false := by
        simp only [beq_eq_false_iff_ne]
        omega
      simp [List.filter_cons, h2]
    · have hik : i = k := by omega
      subst hik
      have h1 : ((List.range i).map (fun j => ((f j, j) : ℕ × ℕ))).filter
          (fun e => e.2 == i) = [] := by
        rw [List.filter_eq_nil_iff]
        intro e he
        obtain ⟨j, hj, rfl⟩ := List.mem_map.mp he
        have hji := List.mem_range.mp hj
        simp only [beq_iff_eq]
        omega
      rw [h1, List.nil_append]
      have h2 : (((f i, i) : ℕ × ℕ).2 == i) = true := by simp
      simp [List.filter_cons, h2]

lemma pullRow_forwardEdges {α : Type} (src : List Vec) (t : List α)
    (s : α → ℕ → ℕ) (d : α) (k i : ℕ) (hi : i < t.length) :
    pullRow src (forwardEdges t s d k) i =
      src.getD (s (t.getD i d) k) [] := by
  unfold pullRow forwardEdges
  rw [filter_pair_range (fun j => s (t.getD j d) k) t.length i hi]
  rfl

lemma pullRows_getD (src : List Vec) (edges : List (ℕ × ℕ)) (n i : ℕ)
    (hi : i < n) :
    (pullRows src edges n).getD i [] = pullRow src edges i := by
  unfold pullRows
  rw [List.getD_eq_getElem?_getD, List.getElem?_map, List.getElem?_range hi]
  rfl

lemma pullRows_length (src : List Vec) (edges : List (ℕ × ℕ)) (n : ℕ) :
    (pullRows src edges n).length = n := by
  simp [pullRows]

/-- C3: the gather step writes, for each slot `k`, the edge-sum pull of the
atoms' `msg_src` attribute into `msg_dest[k]`; on a constructed heterograph
each factor instance has exactly one in-edge per slot, so row `i` of the
buffer equals the `msg_src` row of the instance's slot-`k` atom (a direct
copy), for all three factor types. -/
theorem gather_is_slot_copy (net : AtomToFactor) (m : OffMol)
    (g : FactorGraph) (hg : offmol_to_heterograph m = some g)
    (src : List Vec)
    (hsrc : getEntry g.atomData net.msg_src_name = some src) :
    (∃ g1, net.passToBond g = some g1 ∧ ∀ k, k < 2 →
      ∃ rows, getEntry g1.bondData (slotName net.msg_dest_name k) =
          some rows ∧ rows.length = m.bonds.length ∧
        ∀ i, i < m.bonds.length →
          rows.getD i [] = src.getD (slot2 (m.bonds.getD i (0, 0)) k) []) ∧
    (∃ g1, net.passToAngle g = some g1 ∧ ∀ k, k < 3 →
      ∃ rows, getEntry g1.angleData (slotName net.msg_dest_name k) =
          some rows ∧ rows.length = m.angles.length ∧
        ∀ i, i < m.angles.length →
          rows.getD i [] =
            src.getD (slot3 (m.angles.getD i (0, 0, 0)) k) []) ∧
    (∃ g1, net.passToTorsion g = some g1 ∧ ∀ k, k < 4 →
      ∃ rows, getEntry g1.torsionData (slotName net.msg_dest_name k) =
          some rows ∧ rows.length = m.propers.length ∧
        ∀ i, i < m.propers.length →
          rows.getD i [] =
            src.getD (slot4 (m.propers.getD i (0, 0, 0, 0)) k) []) := by
  have hgb := offmol_to_heterograph_inv m g hg
  subst hgb
  have hne01 := slotName_ne net.msg_dest_name 0 1 (by omega) (by omega)
    (by omega)
  have hne02 := slotName_ne net.msg_dest_name 0 2 (by omega) (by omega)
    (by omega)
  have hne12 := slotName_ne net.msg_dest_name 1 2 (by omega) (by omega)
    (by omega)
  have hne03 := slotName_ne net.msg_dest_name 0 3 (by omega) (by omega)
    (by omega)
  have hne13 := slotName_ne net.msg_dest_name 1 3 (by omega) (by omega)
    (by omega)
  have hne23 := slotName_ne net.msg_dest_name 2 3 (by omega) (by omega)
    (by omega)
  refine
    ⟨⟨{ builtGraph m with bondData := bondPassTable net (builtGraph m) src },
      by unfold AtomToFactor.passToBond; rw [hsrc]; rfl, ?_⟩,
    ⟨{ builtGraph m with angleData := anglePassTable net (builtGraph m) src },
      by unfold AtomToFactor.passToAngle; rw [hsrc]; rfl, ?_⟩,
    ⟨{ builtGraph m with
         torsionData := torsionPassTable net (builtGraph m) src },
      by unfold AtomToFactor.passToTorsion; rw [hsrc]; rfl, ?_⟩⟩
  · intro k hk
    have hcnt : (builtGraph m).numBonds = m.bonds.length :=
      inferredBondCount_eq m
    interval_cases k
    · refine ⟨pullRows src ((builtGraph m).bondIn.getD 0 [])
          (builtGraph m).numBonds, ?_, ?_, ?_⟩
      · show getEntry (bondPassTable net (builtGraph m) src) _ = _
        unfold bondPassTable
        rw [getEntry_setEntry_ne _ _ _ _ hne01, getEntry_setEntry_self]
      · rw [pullRows_length, hcnt]
      · intro i hi
        rw [pullRows_getD _ _ _ i (by omega),
          builtGraph_bondIn_getD m 0 (by omega),
          pullRow_forwardEdges src m.bonds slot2 (0, 0) 0 i hi]
    · refine ⟨pullRows src ((builtGraph m).bondIn.getD 1 [])
          (builtGraph m).numBonds, ?_, ?_, ?_⟩
      · show getEntry (bondPassTable net (builtGraph m) src) _ = _
        unfold bondPassTable
        rw [getEntry_setEntry_self]
      · rw [pullRows_length, hcnt]
      · intro i hi
        rw [pullRows_getD _ _ _ i (by omega),
          builtGraph_bondIn_getD m 1 (by omega),
          pullRow_forwardEdges src m.bonds slot2 (0, 0) 1 i hi]
  · intro k hk
    have hcnt : (builtGraph m).numAngles = m.angles.length :=
      inferredAngleCount_eq m
    interval_cases k
    · refine ⟨pullRows src ((builtGraph m).angleIn.getD 0 [])
          (builtGraph m).numAngles, ?_, ?_, ?_⟩
      · show getEntry (anglePassTable net (builtGraph m) src) _ = _
        unfold anglePassTable
        rw [getEntry_setEntry_ne _ _ _ _ hne02,
          getEntry_setEntry_ne _ _ _ _ hne01, getEntry_setEntry_self]
      · rw [pullRows_length, hcnt]
      · intro i hi
        rw [pullRows_getD _ _ _ i (by omega),
          builtGraph_angleIn_getD m 0 (by omega),
          pullRow_forwardEdges src m.angles slot3 (0, 0, 0) 0 i hi]
    · refine ⟨pullRows src ((builtGraph m).angleIn.getD 1 [])
          (builtGraph m).numAngles, ?_, ?_, ?_⟩
      · show getEntry (anglePassTable net (builtGraph m) src) _ = _
        unfold anglePassTable
        rw [getEntry_setEntry_ne _ _ _ _ hne12, getEntry_setEntry_self]
      · rw [pullRows_length, hcnt]
      · intro i hi
        rw [pullRows_getD _ _ _ i (by omega),
          builtGraph_angleIn_getD m 1 (by omega),
          pullRow_forwardEdges src m.angles slot3 (0, 0, 0) 1 i hi]
    · refine ⟨pullRows src ((builtGraph m).angleIn.getD 2 [])
          (builtGraph m).numAngles, ?_, ?_, ?_⟩
      · show getEntry (anglePassTable net (builtGraph m) src) _ = _
        unfold anglePassTable
        rw [getEntry_setEntry_self]
      · rw [pullRows_length, hcnt]
      · intro i hi
        rw [pullRows_getD _ _ _ i (by omega),
          builtGraph_angleIn_getD m 2 (by omega),
          pullRow_forwardEdges src m.angles slot3 (0, 0, 0) 2 i hi]
  · intro k hk
    have hcnt : (builtGraph m).numTorsions = m.propers.length :=
      inferredTorsionCount_eq m
    interval_cases k
    · refine ⟨pullRows src ((builtGraph m).torsionIn.getD 0 [])
          (builtGraph m).numTorsions, ?_, ?_, ?_⟩
      · show getEntry (torsionPassTable net (builtGraph m) src) _ = _
        unfold torsionPassTable
        rw [getEntry_setEntry_ne _ _ _ _ hne03,
          getEntry_setEntry_ne _ _ _ _ hne02,
          getEntry_setEntry_ne _ _ _ _ hne01, getEntry_setEntry_self]
      · rw [pullRows_length, hcnt]
      · intro i hi
        rw [pullRows_getD _ _ _ i (by omega),
          builtGraph_torsionIn_getD m 0 (by omega),
          pullRow_forwardEdges src m.propers slot4 (0, 0, 0, 0) 0 i hi]
    · refine ⟨pullRows src ((builtGraph m).torsionIn.getD 1 [])
          (builtGraph m).numTorsions, ?_, ?_, ?_⟩
      · show getEntry (torsionPassTable net (builtGraph m) src) _ = _
        unfold torsionPassTable
        rw [getEntry_setEntry_ne _ _ _ _ hne13,
          getEntry_setEntry_ne _ _ _ _ hne12, getEntry_setEntry_self]
      · rw [pullRows_length, hcnt]
      · intro i hi
        rw [pullRows_getD _ _ _ i (by omega),
          builtGraph_torsionIn_getD m 1 (by omega),
          pullRow_forwardEdges src m.propers slot4 (0, 0, 0, 0) 1 i hi]
    · refine ⟨pullRows src ((builtGraph m).torsionIn.getD 2 [])
          (builtGraph m).numTorsions, ?_, ?_, ?_⟩
      · show getEntry (torsionPassTable net (builtGraph m) src) _ = _
        unfold torsionPassTable
        rw [getEntry_setEntry_ne _ _ _ _ hne23, getEntry_setEntry_self]
      · rw [pullRows_length, hcnt]
      · intro i hi
        rw [pullRows_getD _ _ _ i (by omega),
          builtGraph_torsionIn_getD m 2 (by omega),
          pullRow_forwardEdges src m.propers slot4 (0, 0, 0, 0) 2 i hi]
    · refine ⟨pullRows src ((builtGraph m).torsionIn.getD 3 [])
          (builtGraph m).numTorsions, ?_, ?_, ?_⟩
      · show getEntry (torsionPassTable net (builtGraph m) src) _ = _
        unfold torsionPassTable
        rw [getEntry_setEntry_self]
      · rw [pullRows_length, hcnt]
      · intro i hi
        rw [pullRows_getD _ _ _ i (by omega),
          builtGraph_torsionIn_getD m 3 (by omega),
          pullRow_forwardEdges src m.propers slot4 (0, 0, 0, 0) 3 i hi]

/-! ### Concrete layers and graphs used as witness inputs -/

/-- A 1-hidden-unit zero-weight stand-in MLP; the frame and gather theorems
quantify over arbitrary layer contents, so witnesses may use small layers. -/
def tinyMLP (inF : ℕ) : MLP :=
  { fc1 := { inFeatures := inF, weight := [List.replicate inF 0],
             bias := [0] },
    fc2 := { inFeatures := 1, weight := [[0]], bias := [0] },
    fc3 := { inFeatures := 1, weight := [[0]], bias := [0] } }

/-- A concrete `AtomToFactor` wired like the `__main__` smoke test
(`msg_src = element`, reading the zero-initialised representation), with
tiny layers. -/
def netTiny : AtomToFactor :=
  { msg_src_name := "element", msg_dest_name := "m",
    current_repr_name := "initial_representation", updated_repr_name := "u",
    atom_dim := 4, initial_bond_dim := 1, initial_angle_dim := 1,
    initial_torsion_dim := 1, updated_bond_dim := 1, updated_angle_dim := 1,
    updated_torsion_dim := 1, bond_f := tinyMLP 9, angle_f := tinyMLP 13,
    torsion_f := tinyMLP 17 }

/-- A zero-weight `torch.nn.Linear` of the given shape. -/
def zeroLinear (inF outF : ℕ) : Linear :=
  { inFeatures := inF, weight := List.replicate outF (List.replicate inF 0),
    bias := List.replicate outF 0 }

/-- A zero-weight `MLP(inF, outF)` exactly as `MLP.__init__` shapes it
(64 hidden units per hidden layer). -/
def zeroMLP (inF outF : ℕ) : MLP :=
  { fc1 := zeroLinear inF 64, fc2 := zeroLinear 64 64,
    fc3 := zeroLinear 64 outF }

/-- Witness for C3 at `offmolW` with the layer `netTiny` (bond factor
type). -/
theorem gather_is_slot_copy_witness :
    ∃ g1, netTiny.passToBond gW = some g1 ∧ ∀ k, k < 2 →
      ∃ rows, getEntry g1.bondData (slotName netTiny.msg_dest_name k) =
          some rows ∧ rows.length = offmolW.bonds.length ∧
        ∀ i, i < offmolW.bonds.length →
          rows.getD i [] =
            ([[0, 0, 1, 0], [0, 0, 1, 0], [0, 0, 1, 0]] : List Vec).getD
              (slot2 (offmolW.bonds.getD i (0, 0)) k) [] :=
  (gather_is_slot_copy netTiny offmolW gW (by decide)
    [[0, 0, 1, 0], [0, 0, 1, 0], [0, 0, 1, 0]] (by decide)).1

/-! ### The dimension contract of the update -/

lemma Linear.apply_isSome_of (l : Linear) (lwf : l.wf) (x : Vec)
    (h : x.length = l.inFeatures) :
    ∃ y, l.apply x = some y ∧ y.length = l.weight.length := by
  unfold Linear.apply
  rw [if_pos h]
  exact ⟨_, rfl, by rw [List.length_zipWith, lwf.2, Nat.min_self]⟩

lemma MLP.forward_isSome (f : MLP) (inF outF : ℕ) (hs : f.shaped inF outF)
    (x : Vec) : (f.forward x).isSome = true ↔ x.length = inF := by
  obtain ⟨wf1, h1i, h1w, wf2, h2i, h2w, wf3, h3i, h3w⟩ := hs
  constructor
  · intro h
    by_contra hx
    have e0 : f.fc1.apply x = none := by
      unfold Linear.apply
      rw [if_neg]
      rw [h1i]
      exact hx
    unfold MLP.forward at h
    rw [e0] at h
    simp at h
  · intro hx
    obtain ⟨y1, e1, hy1⟩ :=
      Linear.apply_isSome_of f.fc1 wf1 x (by rw [h1i]; exact hx)
    obtain ⟨y2, e2, hy2⟩ := Linear.apply_isSome_of f.fc2 wf2 (vrelu y1)
      (by simp only [vrelu, List.length_map, hy1, h1w, h2i])
    obtain ⟨y3, e3, hy3⟩ := Linear.apply_isSome_of f.fc3 wf3 (vrelu y2)
      (by simp only [vrelu, List.length_map, hy2, h2w, h3i])
    unfold MLP.forward
    simp only [e1, e2, e3]
    rfl

lemma updatedFactorRepr_isSome (f : MLP) (inF outF : ℕ)
    (hs : f.shaped inF outF) (msgs : List Vec) (r : Vec) :
    (updatedFactorRepr f msgs r).isSome = true ↔
      msgs.flatten.length + r.length = inF := by
  have hrev : msgs.reverse.flatten.length = msgs.flatten.length := by
    rw [List.length_flatten, List.length_flatten, List.map_reverse,
      List.sum_reverse]
  constructor
  · intro h
    unfold updatedFactorRepr at h
    cases e1 : f.forward (msgs.flatten ++ r) with
    | none => rw [e1] at h; simp at h
    | some a =>
      have hlen := (MLP.forward_isSome f inF outF hs _).mp (by rw [e1]; rfl)
      rw [List.length_append] at hlen
      exact hlen
  · intro h
    have ha := (MLP.forward_isSome f inF outF hs (msgs.flatten ++ r)).mpr
      (by rw [List.length_append]; exact h)
    have hb := (MLP.forward_isSome f inF outF hs
      (msgs.reverse.flatten ++ r)).mpr
      (by rw [List.length_append, hrev]; exact h)
    obtain ⟨a, ea⟩ := Option.isSome_iff_exists.mp ha
    obtain ⟨b, eb⟩ := Option.isSome_iff_exists.mp hb
    unfold updatedFactorRepr
    simp only [ea, eb]
    rfl

/-- The concrete transform used to exhibit the C4 counterexample:
`atom_dim = 1`, all current dims 1, zero weights of the constructed
shapes. -/
def netC4 : AtomToFactor :=
  { msg_src_name := "element", msg_dest_name := "m",
    current_repr_name := "initial_representation", updated_repr_name := "u",
    atom_dim := 1, initial_bond_dim := 1, initial_angle_dim := 1,
    initial_torsion_dim := 1, updated_bond_dim := 1, updated_angle_dim := 1,
    updated_torsion_dim := 1, bond_f := zeroMLP 3 1, angle_f := zeroMLP 4 1,
    torsion_f := zeroMLP 5 1 }

/-- C4 counterexample: with atom width `d = 1` and current bond width
`c = 1`, the bond update accepts gathered slot vectors of widths 2 and 0 —
both different from `d` — because torch only checks the total concatenated
width `2·d + c = 3`; the claim's "per-slot width ≠ d fails" is false. -/
theorem dimension_mismatch_accepted :
    netC4.wf ∧ netC4.atom_dim = 1 ∧ netC4.initial_bond_dim = 1 ∧
    ([0, 0] : Vec).length ≠ netC4.atom_dim ∧
    ([] : Vec).length ≠ netC4.atom_dim ∧
    (updatedFactorRepr netC4.bond_f [[0, 0], []] [0]).isSome = true := by
  refine ⟨by decide, rfl, rfl, by decide, by decide, by decide⟩

/-- C4 amended: for a transform with the shapes `__init__` constructs, the
update for an arity-`n` factor type succeeds exactly when the *total*
concatenated width equals `atom_dim * n + current_dim`, and fails with a
dimension error otherwise; equal per-slot widths `atom_dim` with current
width `current_dim` are accepted, but so is any compensating combination of
slot widths. -/
theorem update_dimension_contract (net : AtomToFactor) (hwf : net.wf)
    (msgs : List Vec) (r : Vec) :
    ((updatedFactorRepr net.bond_f msgs r).isSome = true ↔
      msgs.flatten.length + r.length =
        net.atom_dim * 2 + net.initial_bond_dim) ∧
    ((updatedFactorRepr net.angle_f msgs r).isSome = true ↔
      msgs.flatten.length + r.length =
        net.atom_dim * 3 + net.initial_angle_dim) ∧
    ((updatedFactorRepr net.torsion_f msgs r).isSome = true ↔
      msgs.flatten.length + r.length =
        net.atom_dim * 4 + net.initial_torsion_dim) :=
  ⟨updatedFactorRepr_isSome net.bond_f _ _ hwf.1 msgs r,
   updatedFactorRepr_isSome net.angle_f _ _ hwf.2.1 msgs r,
   updatedFactorRepr_isSome net.torsion_f _ _ hwf.2.2 msgs r⟩

/-- Witness for the amended C4: correctly sized inputs are accepted. -/
theorem update_dimension_contract_witness :
    (updatedFactorRepr netC4.bond_f [[0], [0]] [0]).isSome = true :=
  (update_dimension_contract netC4 (by decide) [[0], [0]] [0]).1.mpr
    (by decide)

/-! ### Frame of one update layer -/

/-- C9 amended: one update layer leaves every node count, every edge
relation and the whole atom feature table unchanged, and in each factor
feature table changes at most the entry under the configured destination
key — which it overwrites with the new representation — *and* the per-slot
gather buffers `msg_dest[k]`; entries under every other name, including the
current representation read as input, are intact. -/
theorem forward_frame (net : AtomToFactor) (g g' : FactorGraph)
    (h : net.forward g = some g') :
    (g'.numAtoms = g.numAtoms ∧ g'.numBonds = g.numBonds ∧
      g'.numAngles = g.numAngles ∧ g'.numTorsions = g.numTorsions ∧
      g'.bondIn = g.bondIn ∧ g'.angleIn = g.angleIn ∧
      g'.torsionIn = g.torsionIn ∧ g'.bondContains = g.bondContains ∧
      g'.angleContains = g.angleContains ∧
      g'.torsionContains = g.torsionContains ∧ g'.atomData = g.atomData) ∧
    (∀ name, name ≠ net.updated_repr_name →
      (∀ k, k < 4 → name ≠ slotName net.msg_dest_name k) →
      getEntry g'.bondData name = getEntry g.bondData name ∧
      getEntry g'.angleData name = getEntry g.angleData name ∧
      getEntry g'.torsionData name = getEntry g.torsionData name) ∧
    (∃ rows, getEntry g'.bondData net.updated_repr_name = some rows) ∧
    (∃ rows, getEntry g'.angleData net.updated_repr_name = some rows) ∧
    (∃ rows, getEntry g'.torsionData net.updated_repr_name = some rows) := by
  obtain ⟨g1, g2, g3, g4, g5, h1, h2, h3, h4, h5, h6⟩ :=
    forward_inv net g g' h
  obtain ⟨src1, hs1, rfl⟩ := passToBond_inv net g g1 h1
  obtain ⟨rb, rfl⟩ := computeBond_inv net _ g2 h2
  obtain ⟨src2, hs2, rfl⟩ := passToAngle_inv net _ g3 h3
  obtain ⟨ra, rfl⟩ := computeAngle_inv net _ g4 h4
  obtain ⟨src3, hs3, rfl⟩ := passToTorsion_inv net _ g5 h5
  obtain ⟨rt, rfl⟩ := computeTorsion_inv net _ g' h6
  refine ⟨⟨rfl, rfl, rfl, rfl, rfl, rfl, rfl, rfl, rfl, rfl, rfl⟩,
    ?_, ?_, ?_, ?_⟩
  · intro name hu hk
    have hk0 := hk 0 (by omega)
    have hk1 := hk 1 (by omega)
    have hk2 := hk 2 (by omega)
    have hk3 := hk 3 (by omega)
    refine ⟨?_, ?_, ?_⟩
    · show getEntry (setEntry (bondPassTable net g src1)
          net.updated_repr_name rb) name = getEntry g.bondData name
      rw [getEntry_setEntry_ne _ _ _ _ hu]
      unfold bondPassTable
      rw [getEntry_setEntry_ne _ _ _ _ hk1, getEntry_setEntry_ne _ _ _ _ hk0]
    · show getEntry (setEntry (anglePassTable net g src2)
          net.updated_repr_name ra) name = getEntry g.angleData name
      rw [getEntry_setEntry_ne _ _ _ _ hu]
      unfold anglePassTable
      rw [getEntry_setEntry_ne _ _ _ _ hk2, getEntry_setEntry_ne _ _ _ _ hk1,
        getEntry_setEntry_ne _ _ _ _ hk0]
    · show getEntry (setEntry (torsionPassTable net g src3)
          net.updated_repr_name rt) name = getEntry g.torsionData name
      rw [getEntry_setEntry_ne _ _ _ _ hu]
      unfold torsionPassTable
      rw [getEntry_setEntry_ne _ _ _ _ hk3, getEntry_setEntry_ne _ _ _ _ hk2,
        getEntry_setEntry_ne _ _ _ _ hk1, getEntry_setEntry_ne _ _ _ _ hk0]
  · exact ⟨rb, getEntry_setEntry_self _ _ _⟩
  · exact ⟨ra, getEntry_setEntry_self _ _ _⟩
  · exact ⟨rt, getEntry_setEntry_self _ _ _⟩

/-- The concrete 64-hidden-unit zero-weight layer used for the C9
counterexample, shaped exactly as
`AtomToFactor('element', 'm', 'initial_representation', 'u', atom_dim=4)`
with the default dimension dictionaries. -/
def netC9 : AtomToFactor :=
  { msg_src_name := "element", msg_dest_name := "m",
    current_repr_name := "initial_representation", updated_repr_name := "u",
    atom_dim := 4, initial_bond_dim := 1, initial_angle_dim := 1,
    initial_torsion_dim := 1, updated_bond_dim := 10,
    updated_angle_dim := 10, updated_torsion_dim := 10,
    bond_f := zeroMLP 9 10, angle_f := zeroMLP 13 10,
    torsion_f := zeroMLP 17 10 }

/-- C9 counterexample: one update layer does *not* leave entries under
names other than the destination key intact — running the layer on the
graph built from `offmolW` changes the bond table's entry under the gather
buffer name `m[0]` (absent before, present after). -/
theorem update_layer_touches_non_destination_entries :
    ((offmol_to_heterograph offmolW).bind netC9.forward).map
        (fun g' => getEntry g'.bondData (slotName "m" 0)) ≠
      (offmol_to_heterograph offmolW).map
        (fun g => getEntry g.bondData (slotName "m" 0)) := by decide

/-- The empty topology: its graph has no factor rows, so one update layer
runs no tensor arithmetic on it. -/
def offmolE : OffMol := { atoms := [], bonds := [], angles := [], propers := [] }

/-- The heterograph built from `offmolE`. -/
def gE : FactorGraph :=
  { numAtoms := 0, numBonds := 0, numAngles := 0, numTorsions := 0,
    bondIn := [[], []], angleIn := [[], [], []],
    torsionIn := [[], [], [], []],
    bondContains := [], angleContains := [], torsionContains := [],
    atomData := [("element", [])],
    bondData := [("initial_representation", [])],
    angleData := [("initial_representation", [])],
    torsionData := [("initial_representation", [])] }

/-- What `netTiny.forward` produces on `gE`. -/
def gE' : FactorGraph :=
  { gE with
    bondData := [("u", []), ("m[1]", []), ("m[0]", []),
      ("initial_representation", [])],
    angleData := [("u", []), ("m[2]", []), ("m[1]", []), ("m[0]", []),
      ("initial_representation", [])],
    torsionData := [("u", []), ("m[3]", []), ("m[2]", []), ("m[1]", []),
      ("m[0]", []), ("initial_representation", [])] }

/-- Witness for the amended C9: the current representation read as input is
intact after the layer runs on a constructed graph. -/
theorem forward_frame_witness :
    getEntry gE'.bondData "initial_representation" =
      getEntry gE.bondData "initial_representation" :=
  ((forward_frame netTiny gE gE' (by decide)).2.1 "initial_representation"
    (by decide) (by decide)).1

/-- C10: after one full update layer, each factor node type of arity `n`
carries the `n` per-slot gather buffers `msg_dest[k]`, each holding the
slot's pull of the atoms' `msg_src` feature over the graph's `(atom, in[k],
factor)` edges; the buffers are written onto the graph and are not removed
when the layer returns (the configured update name must not shadow a buffer
name). -/
theorem gather_buffers_persist (net : AtomToFactor) (g g' : FactorGraph)
    (h : net.forward g = some g')
    (hfresh : ∀ k, k < 4 →
      net.updated_repr_name ≠ slotName net.msg_dest_name k) :
    ∃ src, getEntry g.atomData net.msg_src_name = some src ∧
      (∀ k, k < 2 → getEntry g'.bondData (slotName net.msg_dest_name k) =
        some (pullRows src (g.bondIn.getD k []) g.numBonds)) ∧
      (∀ k, k < 3 → getEntry g'.angleData (slotName net.msg_dest_name k) =
        some (pullRows src (g.angleIn.getD k []) g.numAngles)) ∧
      (∀ k, k < 4 →
        getEntry g'.torsionData (slotName net.msg_dest_name k) =
          some (pullRows src (g.torsionIn.getD k []) g.numTorsions)) := by
  obtain ⟨g1, g2, g3, g4, g5, h1, h2, h3, h4, h5, h6⟩ :=
    forward_inv net g g' h
  obtain ⟨src1, hs1, hg1⟩ := passToBond_inv net g g1 h1
  obtain ⟨rb, hg2⟩ := computeBond_inv net g1 g2 h2
  obtain ⟨src2, hs2, hg3⟩ := passToAngle_inv net g2 g3 h3
  obtain ⟨ra, hg4⟩ := computeAngle_inv net g3 g4 h4
  obtain ⟨src3, hs3, hg5⟩ := passToTorsion_inv net g4 g5 h5
  obtain ⟨rt, hg6⟩ := computeTorsion_inv net g5 g' h6
  have ha2 : g2.atomData = g.atomData := by rw [hg2, hg1]
  have ha4 : g4.atomData = g.atomData := by rw [hg4, hg3, ha2]
  rw [ha2] at hs2
  rw [ha4] at hs3
  rw [hs1] at hs2 hs3
  obtain rfl : src1 = src2 := Option.some.inj hs2
  obtain rfl : src1 = src3 := Option.some.inj hs3
  subst hg1
  subst hg2
  subst hg3
  subst hg4
  subst hg5
  subst hg6
  have hne01 := slotName_ne net.msg_dest_name 0 1 (by omega) (by omega)
    (by omega)
  have hne02 := slotName_ne net.msg_dest_name 0 2 (by omega) (by omega)
    (by omega)
  have hne12 := slotName_ne net.msg_dest_name 1 2 (by omega) (by omega)
    (by omega)
  have hne03 := slotName_ne net.msg_dest_name 0 3 (by omega) (by omega)
    (by omega)
  have hne13 := slotName_ne net.msg_dest_name 1 3 (by omega) (by omega)
    (by omega)
  have hne23 := slotName_ne net.msg_dest_name 2 3 (by omega) (by omega)
    (by omega)
  refine ⟨src1, hs1, ?_, ?_, ?_⟩
  · intro k hk
    interval_cases k
    · show getEntry (setEntry (bondPassTable net g src1)
          net.updated_repr_name rb) _ = _
      rw [getEntry_setEntry_ne _ _ _ _ ((hfresh 0 (by omega)).symm)]
      unfold bondPassTable
      rw [getEntry_setEntry_ne _ _ _ _ hne01, getEntry_setEntry_self]
    · show getEntry (setEntry (bondPassTable net g src1)
          net.updated_repr_name rb) _ = _
      rw [getEntry_setEntry_ne _ _ _ _ ((hfresh 1 (by omega)).symm)]
      unfold bondPassTable
      rw [getEntry_setEntry_self]
  · intro k hk
    interval_cases k
    · show getEntry (setEntry (anglePassTable net g src1)
          net.updated_repr_name ra) _ = _
      rw [getEntry_setEntry_ne _ _ _ _ ((hfresh 0 (by omega)).symm)]
      unfold anglePassTable
      rw [getEntry_setEntry_ne _ _ _ _ hne02,
        getEntry_setEntry_ne _ _ _ _ hne01, getEntry_setEntry_self]
    · show getEntry (setEntry (anglePassTable net g src1)
          net.updated_repr_name ra) _ = _
      rw [getEntry_setEntry_ne _ _ _ _ ((hfresh 1 (by omega)).symm)]
      unfold anglePassTable
      rw [getEntry_setEntry_ne _ _ _ _ hne12, getEntry_setEntry_self]
    · show getEntry (setEntry (anglePassTable net g src1)
          net.updated_repr_name ra) _ = _
      rw [getEntry_setEntry_ne _ _ _ _ ((hfresh 2 (by omega)).symm)]
      unfold anglePassTable
      rw [getEntry_setEntry_self]
  · intro k hk
    interval_cases k
    · show getEntry (setEntry (torsionPassTable net g src1)
          net.updated_repr_name rt) _ = _
      rw [getEntry_setEntry_ne _ _ _ _ ((hfresh 0 (by omega)).symm)]
      unfold torsionPassTable
      rw [getEntry_setEntry_ne _ _ _ _ hne03,
        getEntry_setEntry_ne _ _ _ _ hne02,
        getEntry_setEntry_ne _ _ _ _ hne01, getEntry_setEntry_self]
    · show getEntry (setEntry (torsionPassTable net g src1)
          net.updated_repr_name rt) _ = _
      rw [getEntry_setEntry_ne _ _ _ _ ((hfresh 1 (by omega)).symm)]
      unfold torsionPassTable
      rw [getEntry_setEntry_ne _ _ _ _ hne13,
        getEntry_setEntry_ne _ _ _ _ hne12, getEntry_setEntry_self]
    · show getEntry (setEntry (torsionPassTable net g src1)
          net.updated_repr_name rt) _ = _
      rw [getEntry_setEntry_ne _ _ _ _ ((hfresh 2 (by omega)).symm)]
      unfold torsionPassTable
      rw [getEntry_setEntry_ne _ _ _ _ hne23, getEntry_setEntry_self]
    · show getEntry (setEntry (torsionPassTable net g src1)
          net.updated_repr_name rt) _ = _
      rw [getEntry_setEntry_ne _ _ _ _ ((hfresh 3 (by omega)).symm)]
      unfold torsionPassTable
      rw [getEntry_setEntry_self]

/-- Witness for C10 at `netTiny` on the constructed graph `gE`. -/
theorem gather_buffers_persist_witness :
    ∃ src, getEntry gE.atomData netTiny.msg_src_name = some src ∧
      (∀ k, k < 2 →
        getEntry gE'.bondData (slotName netTiny.msg_dest_name k) =
          some (pullRows src (gE.bondIn.getD k []) gE.numBonds)) ∧
      (∀ k, k < 3 →
        getEntry gE'.angleData (slotName netTiny.msg_dest_name k) =
          some (pullRows src (gE.angleIn.getD k []) gE.numAngles)) ∧
      (∀ k, k < 4 →
        getEntry gE'.torsionData (slotName netTiny.msg_dest_name k) =
          some (pullRows src (gE.torsionIn.getD k []) gE.numTorsions)) :=
  gather_buffers_persist netTiny gE gE' (by decide) (by decide)

/-! ### Determinism of construction plus one update layer -/

/-- One graph construction followed by one `AtomToFactor` update layer. -/
def pipeline (m : OffMol) (net : AtomToFactor) : Option FactorGraph :=
  (offmol_to_heterograph m).bind net.forward

/-- C5: the pipeline is a deterministic function of the topology and the
network weights alone — two independent runs on equal inputs produce equal
outputs (construction and update are pure: no state outside the arguments
exists in the model) — and the positional references later steps rely on
are fixed: the `i`-th edge of forward relation `k` connects the slot-`k`
atom of input tuple `i` to factor node `i` (edge order = input tuple order,
slot order = extraction order). -/
theorem pipeline_deterministic (m1 m2 : OffMol) (net1 net2 : AtomToFactor)
    (hm : m1 = m2) (hnet : net1 = net2) :
    pipeline m1 net1 = pipeline m2 net2 ∧
    (∀ g, offmol_to_heterograph m1 = some g →
      ∀ k, k < 2 → ∀ i, i < m1.bonds.length →
        (g.bondIn.getD k []).getD i (0, 0) =
          (slot2 (m1.bonds.getD i (0, 0)) k, i)) := by
  subst hm
  subst hnet
  refine ⟨rfl, ?_⟩
  intro g hg k hk i hi
  have hb := offmol_to_heterograph_inv m1 g hg
  subst hb
  rw [builtGraph_bondIn_getD m1 k hk, forwardEdges_getD _ _ _ _ _ hi]

/-- Witness for C5 at the concrete topology `offmolW` and layer
`netTiny`. -/
theorem pipeline_deterministic_witness :
    pipeline offmolW netTiny = pipeline offmolW netTiny ∧
    (∀ g, offmol_to_heterograph offmolW = some g →
      ∀ k, k < 2 → ∀ i, i < offmolW.bonds.length →
        (g.bondIn.getD k []).getD i (0, 0) =
          (slot2 (offmolW.bonds.getD i (0, 0)) k, i)) :=
  pipeline_deterministic offmolW offmolW netTiny netTiny rfl rfl

/-! ## The dataset adapter: `qcarchive_utils.get_graph` -/

/-- One optimization-trajectory snapshot as `get_graph` reads it: an SCF
total energy in hartree, a geometry in bohr (rows per atom) and the
`return_result` gradient rows. -/
structure Snapshot where
  scf_total_energy : ℚ
  geometry : List Vec
  return_result : List Vec
deriving DecidableEq

/-- The outcome of `record.get_trajectory()` inside `get_graph`'s
`try/except`: `none` models the call raising, `some none` the call
returning Python `None`, and `some (some traj)` a usable trajectory. -/
structure QCRecord where
  trajectory : Option (Option (List Snapshot))
deriving DecidableEq

/-- Modelled from the spec: the `espaloma.units` conversion constants
(`HARTREE_PER_PARTICLE → ENERGY_UNIT`, `bohr → DISTANCE_UNIT`,
`hartree/bohr → FORCE_UNIT`) live in the espaloma package outside this file
set; the spec fixes only that all labels are converted into one internal
unit system, so the three factors are abstract rationals. -/
structure UnitSystem where
  energyFactor : ℚ
  distanceFactor : ℚ
  forceFactor : ℚ
deriving DecidableEq

/-- Modelled from the spec: the label slice of `esp.Graph` (espaloma's
graph class is outside this file set) that `get_graph` writes — the
per-snapshot reference energies `u_ref` on the global node, and per-atom
geometry `xyz` and force `u_ref_prime` rows.  The source stacks snapshots
along tensor axis 1; the per-snapshot nesting kept here is a transposition
of that layout. -/
structure EspGraph where
  u_ref : List ℚ
  xyz : List (List Vec)
  u_ref_prime : List (List Vec)
deriving DecidableEq

/-- `get_graph(collection, record_name)` after the record, entry and
molecule lookups: `try: trajectory = record.get_trajectory() except:
return None`; then `if trajectory is None: return None`; otherwise attach
the three unit-converted label tensors and return the graph.  The `u_ref`
tensor (a plain `torch.tensor` of a list comprehension) tolerates an empty
trajectory, but the `xyz` assignment calls `np.stack([...], axis=1)`, which
raises `ValueError` on an empty list (as would the later `torch.stack`), so
an *empty* retrieved trajectory makes `get_graph` raise rather than return.
`Except.error ()` models that uncaught exception propagating out of
`get_graph`; `Except.ok none` models the explicit Python `None` skip
outcome; `Except.ok (some g)` a returned graph. -/
def get_graph (u : UnitSystem) (record : QCRecord) :
    Except Unit (Option EspGraph) :=
  match record.trajectory with
  | none => Except.ok none
  | some none => Except.ok none
  | some (some traj) =>
    if traj = [] then Except.error ()
    else
      Except.ok (some
        { u_ref := traj.map (fun s => s.scf_total_energy * u.energyFactor),
          xyz := traj.map (fun s =>
            s.geometry.map (fun row =>
              row.map (fun x => x * u.distanceFactor))),
          u_ref_prime := traj.map (fun s =>
            s.return_result.map (fun row =>
              row.map (fun x => x * u.forceFactor))) })

/-- C8 counterexample: at a record whose retrieval succeeds with an *empty*
trajectory, `get_graph` raises (the `np.stack` of an empty snapshot list)
— it neither returns the explicit skip outcome nor a graph, refuting the
claim's "otherwise it returns a graph". -/
theorem get_graph_empty_trajectory_raises :
    get_graph ⟨1, 1, 1⟩ ⟨some (some [])⟩ = Except.error () ∧
    (¬ ∃ eg, get_graph ⟨1, 1, 1⟩ ⟨some (some [])⟩ = Except.ok (some eg)) ∧
    get_graph ⟨1, 1, 1⟩ ⟨some (some [])⟩ ≠ Except.ok none := by
  refine ⟨rfl, ?_, ?_⟩
  · rintro ⟨eg, h⟩
    rw [show get_graph ⟨1, 1, 1⟩ ⟨some (some [])⟩ = Except.error () from
      rfl] at h
    exact Except.noConfusion h
  · intro h
    rw [show get_graph ⟨1, 1, 1⟩ ⟨some (some [])⟩ = Except.error () from
      rfl] at h
    exact Except.noConfusion h

/-- C8 amended: `get_graph` returns the explicit no-result outcome
(Python `None`), not a raised exception, exactly when the record's
trajectory is absent or unreadable (retrieval raises, or the retrieved
trajectory is `None`); for a *nonempty* retrieved trajectory it returns a
graph; for an *empty* retrieved trajectory it raises (the `np.stack` of an
empty list), returning neither the skip outcome nor a graph.  The skip case
is thus distinguishable from every successful fetch, but an empty
trajectory is not a successful empty-trajectory graph — it is an error. -/
theorem get_graph_skip_semantics (u : UnitSystem) (record : QCRecord) :
    (get_graph u record = Except.ok none ↔
      record.trajectory = none ∨ record.trajectory = some none) ∧
    (∀ traj, record.trajectory = some (some traj) → traj ≠ [] →
      ∃ eg, get_graph u record = Except.ok (some eg)) ∧
    (∀ traj, record.trajectory = some (some traj) → traj = [] →
      get_graph u record = Except.error ()) := by
  obtain ⟨traj⟩ := record
  rcases traj with _ | (_ | t)
  · exact ⟨by simp [get_graph], fun traj h => by simp at h,
      fun traj h => by simp at h⟩
  · exact ⟨by simp [get_graph], fun traj h => by simp at h,
      fun traj h => by simp at h⟩
  · refine ⟨?_, ?_, ?_⟩
    · cases t with
      | nil => simp [get_graph]
      | cons s rest => simp [get_graph]
    · intro traj h hne
      injection h with h
      injection h with h
      subst h
      simp only [get_graph]
      rw [if_neg hne]
      exact ⟨_, rfl⟩
    · intro traj h he
      injection h with h
      injection h with h
      subst h
      subst he
      simp [get_graph]

/-- Witness for the amended C8: a record retrieved with a one-snapshot
trajectory yields a graph (not the skip outcome and not an error). -/
theorem get_graph_skip_semantics_witness :
    ∃ eg, get_graph ⟨1, 1, 1⟩ ⟨some (some [⟨0, [], []⟩])⟩ =
      Except.ok (some eg) :=
  (get_graph_skip_semantics ⟨1, 1, 1⟩ ⟨some (some [⟨0, [], []⟩])⟩).2.1
    [⟨0, [], []⟩] rfl (by decide)

end Factornet
